import Mathlib

/-!
Verification of the Hypatia cold-boot loader's paging core, bump allocator
and AP bring-up sequencer, shallowly embedded from the Rust sources
(`x86_64/src/vm.rs`, `theon/src/allocator.rs`, `theon/src/x86_64/mp.rs`).

Page tables are accessed through the recursive self-map: every page-table
entry of the current address space lives at a fixed virtual address
`BASE_L + index_L(va) * 8`.  We therefore model the machine's PTE store as a
function from virtual byte addresses to 64-bit words, which captures the
aliasing behaviour of the recursive map faithfully.
-/

namespace Hypatia

/-- The PTE store: maps the virtual byte address of a page-table entry to the
64-bit word stored there.  All words are natural numbers below 2^64. -/
abbrev Mem : Type := Nat → Nat

/-- A single 64-bit store (`AtomicU64::store` / `PTE::assign` / `PTE::clear`). -/
def write (m : Mem) (a v : Nat) : Mem := fun x => if x = a then v else m x

/-! ## PTE words (vm.rs, `PTEFlags` and `impl PTE`)

Flag bits from the `bitflags!` block: PRESENT = 1, WRITE = 1<<1, USER = 1<<2,
WRTHRU = 1<<3, NOCACHE = 1<<4, ACCESS = 1<<5, DIRTY = 1<<6, HUGE = 1<<7,
GLOBAL = 1<<8, NX = 1<<63. -/

def PRESENT : Nat := 1
def WRITE : Nat := 2
def HUGE : Nat := 128
def NX : Nat := 2 ^ 63

/-- `PTE::PFA_MASK = 0x00007FFFFFFFF000`, i.e. bits 12..46. -/
def PFA_MASK : Nat := 0x00007FFFFFFFF000

/-- `PTE::pfa`: the word masked with `PFA_MASK`.  Since the mask selects
bits 12..46, `w &&& PFA_MASK` equals `w % 2^47 / 2^12 * 2^12`. -/
def pfa (w : Nat) : Nat := w % 2 ^ 47 / 2 ^ 12 * 2 ^ 12

/-- `PTEFlags::from_bits_truncate`: keep only the defined flag bits, which
are bits 0..8 and bit 63. -/
def flags_of (w : Nat) : Nat := w % 2 ^ 9 + w / 2 ^ 63 % 2 * 2 ^ 63

/-- `PTE::is_present`: the PRESENT bit (bit 0) is set. -/
abbrev is_present (w : Nat) : Prop := w % 2 = 1

/-- `PTE::is_big`: the HUGE bit (bit 7) is set. -/
abbrev is_big (w : Nat) : Prop := w / 2 ^ 7 % 2 = 1

/-- `PTE::new(hpa, flags)`: asserts `hpa & PFA_MASK == hpa` (else the Rust
code panics, modeled as `none`) and stores `address | flags`.  The masked
address occupies bits 12..46 and every flag word used by this module
occupies only bits 0..8 and 63, so bitwise-or coincides with addition. -/
def PTE_new (hpa flags : Nat) : Option Nat :=
  if pfa hpa = hpa then some (hpa + flags) else none

/-! ## Levels of the recursive map (vm.rs, `trait Level` and its impls) -/

/-- `Level4::BASE_ADDRESS`. -/
def L4_BASE : Nat := 0xFFFFFFFFFFFFF000
/-- `Level4::SIDE_BASE_ADDRESS`. -/
def L4_SIDE_BASE : Nat := 0xFFFFFFFFFFFFE000
/-- `Level3::BASE_ADDRESS`. -/
def L3_BASE : Nat := 0xFFFFFFFFFFE00000
/-- `Level2::BASE_ADDRESS`. -/
def L2_BASE : Nat := 0xFFFFFFFFC0000000
/-- `Level1::BASE_ADDRESS`. -/
def L1_BASE : Nat := 0xFFFFFF8000000000
/-- `Level1::SIDE_BASE_ADDRESS`: the lowest address of any self/side map
window; `map` asserts that mapped addresses lie strictly below it. -/
def L1_SIDE_BASE : Nat := 0xFFFFFF0000000000

/-- `Level::index`: `(va & ADDRESS_MASK) >> PAGE_SHIFT` with
`ADDRESS_MASK = 2^48 - 1`, rendered with mod and division. -/
def index (shift va : Nat) : Nat := va % 2 ^ 48 / 2 ^ shift

/-- `Level4::pte_ref`: address of the L4 entry for `va` (PAGE_SHIFT = 39). -/
def l4addr (va : Nat) : Nat := L4_BASE + index 39 va * 8
/-- `Level3::pte_ref` address (PAGE_SHIFT = 30). -/
def l3addr (va : Nat) : Nat := L3_BASE + index 30 va * 8
/-- `Level2::pte_ref` address (PAGE_SHIFT = 21). -/
def l2addr (va : Nat) : Nat := L2_BASE + index 21 va * 8
/-- `Level1::pte_ref` address (PAGE_SHIFT = 12). -/
def l1addr (va : Nat) : Nat := L1_BASE + index 12 va * 8

/-- `Level4::side_pte_ref` address. -/
def l4sideaddr (va : Nat) : Nat := L4_SIDE_BASE + index 39 va * 8

/-- Virtual address of slot `Level4::SIDE_INDEX = 510` of the current root
table (used by `side_load` / `unload_side`). -/
def SIDE_SLOT_ADDR : Nat := L4_BASE + 510 * 8

/-! ## Walks and translation (vm.rs `walk`, `translate`) -/

/-- A decoded non-leaf-level entry: `Next` points to a child table and keeps
the raw word, `Page` is a huge/large terminal page and keeps the frame
address (`pte.pfa()`). -/
inductive NP where
| next : Nat → NP
| page : Nat → NP
deriving DecidableEq

/-- `struct Walk`: the four optional entries found along a path. -/
structure Walk where
  e4 : Option Nat
  e3 : Option NP
  e2 : Option NP
  e1 : Option Nat
deriving DecidableEq

/-- `Level4::decode`: present entries are always `Next` at L4. -/
def decode4 (w : Nat) : Option Nat :=
  if is_present w then some w else none

/-- `Level3::decode`. -/
def decode3 (w : Nat) : Option NP :=
  if is_present w then (if is_big w then some (NP.page (pfa w)) else some (NP.next w)) else none

/-- `Level2::decode`. -/
def decode2 (w : Nat) : Option NP :=
  if is_present w then (if is_big w then some (NP.page (pfa w)) else some (NP.next w)) else none

/-- `Level1::decode`: a present L1 entry is a 4 KiB page frame. -/
def decode1 (w : Nat) : Option Nat :=
  if is_present w then some (pfa w) else none

/-- `fn walk(va)`: read the four levels, stopping early when a level is
absent or a huge page terminates the path. -/
def walk (m : Mem) (va : Nat) : Walk :=
  match decode4 (m (l4addr va)) with
  | none => ⟨none, none, none, none⟩
  | some w4 =>
    match decode3 (m (l3addr va)) with
    | some (NP.next w3) =>
      match decode2 (m (l2addr va)) with
      | some (NP.next w2) =>
        ⟨some w4, some (NP.next w3), some (NP.next w2), decode1 (m (l1addr va))⟩
      | e2 => ⟨some w4, some (NP.next w3), e2, none⟩
    | e3 => ⟨some w4, e3, none, none⟩

/-- `fn translate_walk(va, w)`: combine the terminal frame address with the
residual low bits of `va` (12, 21 or 30 bits depending on the level). -/
def translate_walk (va : Nat) (w : Walk) : Option Nat :=
  match w with
  | ⟨some _, some (NP.next _), some (NP.next _), some hpa⟩ => some (hpa + va % 2 ^ 12)
  | ⟨some _, some (NP.next _), some (NP.page hpa), _⟩ => some (hpa + va % 2 ^ 21)
  | ⟨some _, some (NP.page hpa), _, _⟩ => some (hpa + va % 2 ^ 30)
  | _ => none

/-- `pub fn translate(va)`. -/
def translate (m : Mem) (va : Nat) : Option Nat := translate_walk va (walk m va)

/-! ## Mapping (vm.rs `map`, `map_leaf`, `unmap`)

The allocator callback `FnMut() -> Result<PF4K>` is modeled as a function
from an allocator state to a `Result` (frame address or error message)
together with the successor state. -/

/-- Outcome of a page-map operation: a Rust panic (failed assertion), an
`Err` return, or an `Ok` return, with the PTE store and allocator state at
the time of the return. -/
inductive Outcome (α : Type) where
| panic : Outcome α
| fail : String → Mem → α → Outcome α
| ok : Mem → α → Outcome α

/-- An allocator callback: from its state, produce a frame address or an
error, plus the updated state. -/
def Alloc (α : Type) : Type := α → Except String Nat × α

/-- Result of `alloc_inner`: panic (from `PTE::new`), error (from the
callback) or a fresh interior PTE word. -/
inductive ARes (α : Type) where
| panic : ARes α
| fail : String → α → ARes α
| ok : Nat → α → ARes α

/-- `fn alloc_inner`: call the allocator and wrap the frame in a
`PRESENT | WRITE` PTE. -/
def alloc_inner {α : Type} (alloc : Alloc α) (st : α) : ARes α :=
  match alloc st with
  | (Except.error e, st') => ARes.fail e st'
  | (Except.ok p, st') =>
    match PTE_new p (PRESENT + WRITE) with
    | none => ARes.panic
    | some v => ARes.ok v st'

/-- `fn page_perm_flags(r, w, x)`: R→PRESENT, W→WRITE, ¬X→NX. -/
def page_perm_flags (r w x : Bool) : Nat :=
  (if r then PRESENT else 0) + (if w then WRITE else 0) + (if x then 0 else NX)

/-- Final stage of `map`: install the leaf if the L1 slot of the original
walk was empty, otherwise return the `Already mapped` error. -/
def map_l1 {α : Type} (hpf flags va : Nat) (m : Mem) (st : α) (w : Walk) : Outcome α :=
  match w.e1 with
  | some _ => Outcome.fail ("Already mapped") m st
  | none =>
    match PTE_new hpf flags with
    | none => Outcome.panic
    | some v => Outcome.ok (write m (l1addr va) v) st

/-- `map` stage for L2: `if let Walk(_, _, None, _) = w { Level2::set_entry(va, alloc_inner(allocator)?) }`. -/
def map_l2 {α : Type} (hpf flags va : Nat) (alloc : Alloc α) (m : Mem) (st : α) (w : Walk) :
    Outcome α :=
  match w.e2 with
  | some _ => map_l1 hpf flags va m st w
  | none =>
    match alloc_inner alloc st with
    | ARes.panic => Outcome.panic
    | ARes.fail e st' => Outcome.fail e m st'
    | ARes.ok v st' => map_l1 hpf flags va (write m (l2addr va) v) st' w

/-- `map` stage for L3. -/
def map_l3 {α : Type} (hpf flags va : Nat) (alloc : Alloc α) (m : Mem) (st : α) (w : Walk) :
    Outcome α :=
  match w.e3 with
  | some _ => map_l2 hpf flags va alloc m st w
  | none =>
    match alloc_inner alloc st with
    | ARes.panic => Outcome.panic
    | ARes.fail e st' => Outcome.fail e m st'
    | ARes.ok v st' => map_l2 hpf flags va alloc (write m (l3addr va) v) st' w

/-- `map` stage for L4. -/
def map_l4 {α : Type} (hpf flags va : Nat) (alloc : Alloc α) (m : Mem) (st : α) (w : Walk) :
    Outcome α :=
  match w.e4 with
  | some _ => map_l3 hpf flags va alloc m st w
  | none =>
    match alloc_inner alloc st with
    | ARes.panic => Outcome.panic
    | ARes.fail e st' => Outcome.fail e m st'
    | ARes.ok v st' => map_l3 hpf flags va alloc (write m (l4addr va) v) st' w

/-- `pub fn map(hpf, flags, va, allocator)`: assert that `va` is below the
recursive region, walk once, then fill in missing levels against the
original walk and finally install the leaf. -/
def map {α : Type} (hpf flags va : Nat) (alloc : Alloc α) (m : Mem) (st : α) : Outcome α :=
  if va < L1_SIDE_BASE then map_l4 hpf flags va alloc m st (walk m va) else Outcome.panic

/-- `pub fn map_leaf(hpf, va, r, w, x)`: `map` with an always-failing
allocator. -/
def map_leaf (hpf va : Nat) (r w x : Bool) (m : Mem) : Outcome Unit :=
  map hpf (page_perm_flags r w x) va (fun st => (Except.error ("not a leaf"), st)) m ()

/-- `pub fn unmap(va)`: if the walk found entries at all four levels, clear
the entry via `Level4::clear(va)` — note the source zeroes the *L4* slot
for `va`, even though its comment speaks of the leaf entry. -/
def unmap (m : Mem) (va : Nat) : Mem :=
  match walk m va with
  | ⟨some _, some _, some _, some _⟩ => write m (l4addr va) 0
  | _ => m

/-! ## Range construction (vm.rs `make_ranges`, `make_shared_ranges`) -/

/-- `VPageAddr::new_round_down` for a page size `s`. -/
def round_down (x s : Nat) : Nat := x / s * s

/-- `VPageAddr::new_round_up` for page size `s`:
`va.wrapping_add(MASK) & !MASK` on 64-bit words. -/
def round_up64 (x s : Nat) : Nat := (x + (s - 1)) % 2 ^ 64 / s * s

/-- Inner loop of `make_ranges_level` at a level with table window `base`
and page shift `shift`: step through `n` level-sized pages starting at
`va`, allocating a `PRESENT | WRITE` interior node wherever the entry is
absent. -/
def make_range_loop {α : Type} (base shift : Nat) (alloc : Alloc α) :
    Nat → Nat → Mem → α → Outcome α
  | 0, _, m, st => Outcome.ok m st
  | Nat.succ n, va, m, st =>
    if is_present (m (base + index shift va * 8)) then
      make_range_loop base shift alloc n (va + 2 ^ shift) m st
    else
      match alloc st with
      | (Except.error e, st') => Outcome.fail e m st'
      | (Except.ok pf, st') =>
        match PTE_new pf (PRESENT + WRITE) with
        | none => Outcome.panic
        | some v =>
          make_range_loop base shift alloc n (va + 2 ^ shift)
            (write m (base + index shift va * 8) v) st'

/-- `fn make_ranges_level::<L>`: per range, round to level granularity,
assert the end lies below the recursive region, then run the loop. -/
def make_ranges_level {α : Type} (base shift : Nat) (alloc : Alloc α) :
    List (Nat × Nat) → Mem → α → Outcome α
  | [], m, st => Outcome.ok m st
  | (s, e) :: rest, m, st =>
    if round_up64 e (2 ^ shift) < L1_SIDE_BASE then
      match make_range_loop base shift alloc
          ((round_up64 e (2 ^ shift) - round_down s (2 ^ shift)) / 2 ^ shift)
          (round_down s (2 ^ shift)) m st with
      | Outcome.ok m' st' => make_ranges_level base shift alloc rest m' st'
      | r => r
    else Outcome.panic

/-- `pub fn make_ranges`: create interior structures at L4, L3 and L2. -/
def make_ranges {α : Type} (ranges : List (Nat × Nat)) (alloc : Alloc α) (m : Mem) (st : α) :
    Outcome α :=
  match make_ranges_level L4_BASE 39 alloc ranges m st with
  | Outcome.ok m1 st1 =>
    match make_ranges_level L3_BASE 30 alloc ranges m1 st1 with
    | Outcome.ok m2 st2 => make_ranges_level L2_BASE 21 alloc ranges m2 st2
    | r => r
  | r => r

/-! ## Side loading (vm.rs `side_load`, `unload_side`, `TLBFlushGuard`) -/

/-- Machine state for the side-load operations: the PTE store plus a counter
of TLB flushes performed (`TLBFlushGuard` flushes on scope exit). -/
structure MState where
  mem : Mem
  flushes : Nat

/-- `pub fn flush_tlb`: rewrite CR3, modeled as bumping the flush counter. -/
def flush_tlb (s : MState) : MState := ⟨s.mem, s.flushes + 1⟩

/-- `pub unsafe fn side_load(pf)`: store a `PRESENT | WRITE` PTE for `pf`
into slot 510 of the root table; the flush guard runs at exit.  `PTE::new`
may panic (modeled as `none`). -/
def side_load (pf : Nat) (s : MState) : Option MState :=
  match PTE_new pf (PRESENT + WRITE) with
  | none => none
  | some v => some (flush_tlb ⟨write s.mem SIDE_SLOT_ADDR v, s.flushes⟩)

/-- `pub fn unload_side()`: read the frame address out of slot 510, clear
the slot, flush on exit, and return the frame. -/
def unload_side (s : MState) : Nat × MState :=
  (pfa (s.mem SIDE_SLOT_ADDR), flush_tlb ⟨write s.mem SIDE_SLOT_ADDR 0, s.flushes⟩)

/-- Inner loop of `make_shared_ranges_level4`: for each 512 GiB step, if the
current L4 entry is zero allocate a fresh interior node, then copy the
(possibly updated) entry into the side-loaded L4 slot. -/
def make_shared_l4_loop {α : Type} (alloc : Alloc α) :
    Nat → Nat → Mem → α → Outcome α
  | 0, _, m, st => Outcome.ok m st
  | Nat.succ n, va, m, st =>
    if m (l4addr va) = 0 then
      match alloc st with
      | (Except.error e, st') => Outcome.fail e m st'
      | (Except.ok pf, st') =>
        match PTE_new pf (PRESENT + WRITE) with
        | none => Outcome.panic
        | some v =>
          make_shared_l4_loop alloc n (va + 2 ^ 39)
            (write (write m (l4addr va) v) (l4sideaddr va) v) st'
    else
      make_shared_l4_loop alloc n (va + 2 ^ 39) (write m (l4sideaddr va) (m (l4addr va))) st

/-- `fn make_shared_ranges_level4`: per range, round to 512 GiB, assert the
end lies below the recursive region, then run the shared L4 loop. -/
def make_shared_ranges_level4 {α : Type} (alloc : Alloc α) :
    List (Nat × Nat) → Mem → α → Outcome α
  | [], m, st => Outcome.ok m st
  | (s, e) :: rest, m, st =>
    if round_up64 e (2 ^ 39) < L1_SIDE_BASE then
      match make_shared_l4_loop alloc
          ((round_up64 e (2 ^ 39) - round_down s (2 ^ 39)) / 2 ^ 39)
          (round_down s (2 ^ 39)) m st with
      | Outcome.ok m' st' => make_shared_ranges_level4 alloc rest m' st'
      | r => r
    else Outcome.panic

/-- Outcome of `make_shared_ranges`, which returns the unloaded side root on
success. -/
inductive OutcomeS (α : Type) where
| panic : OutcomeS α
| fail : String → MState → α → OutcomeS α
| ok : Nat → MState → α → OutcomeS α

/-- `pub fn make_shared_ranges(ranges, side, allocator)`: side-load the
foreign root, build shared L4 entries, build L3 and L2 interior nodes, and
unload the side root. -/
def make_shared_ranges {α : Type} (ranges : List (Nat × Nat)) (side : Nat) (alloc : Alloc α)
    (s : MState) (st : α) : OutcomeS α :=
  match side_load side s with
  | none => OutcomeS.panic
  | some s1 =>
    match make_shared_ranges_level4 alloc ranges s1.mem st with
    | Outcome.panic => OutcomeS.panic
    | Outcome.fail e m' st' => OutcomeS.fail e ⟨m', s1.flushes⟩ st'
    | Outcome.ok m1 st1 =>
      match make_ranges_level L3_BASE 30 alloc ranges m1 st1 with
      | Outcome.panic => OutcomeS.panic
      | Outcome.fail e m' st' => OutcomeS.fail e ⟨m', s1.flushes⟩ st'
      | Outcome.ok m2 st2 =>
        match make_ranges_level L2_BASE 21 alloc ranges m2 st2 with
        | Outcome.panic => OutcomeS.panic
        | Outcome.fail e m' st' => OutcomeS.fail e ⟨m', s1.flushes⟩ st'
        | Outcome.ok m3 st3 =>
          let r := unload_side ⟨m3, s1.flushes⟩
          OutcomeS.ok r.1 r.2 st3

/-! ## Bump allocator (theon/src/allocator.rs `BumpAlloc::alloc_bytes`) -/

/-- The bump allocator state: buffer base address, buffer length, and the
monotone cursor. -/
structure BumpAlloc where
  base : Nat
  len : Nat
  cursor : Nat
deriving DecidableEq

/-- `<*mut u8>::align_offset` for a power-of-two `align`: the smallest
adjustment making `addr + adjust` a multiple of `align`. -/
def align_offset (addr align : Nat) : Nat := (align - addr % align) % align

/-- `BumpAlloc::alloc_bytes(align, size)`: align the absolute address
`base + cursor`, extend by `size`, fail when the result exceeds the buffer
length, else advance the cursor and return the region's base address. -/
def alloc_bytes (b : BumpAlloc) (align size : Nat) : Option (Nat × BumpAlloc) :=
  if b.cursor + align_offset (b.base + b.cursor) align + size ≤ b.len then
    some (b.base + (b.cursor + align_offset (b.base + b.cursor) align),
      ⟨b.base, b.len, b.cursor + align_offset (b.base + b.cursor) align + size⟩)
  else none

/-! ## AP bring-up (theon/src/x86_64/mp.rs `init_sipi_sipi`)

The per-iteration atomic loads of the AP state words are modeled by a read
trace `stateAt t i`: the value the boot processor reads from AP `i`'s state
word in polling iteration `t`; `lateState i` is the value read in the
directed-SIPI loop after the window expires. -/

/-- `const STATE_RUNNING: u32 = 1`. -/
def STATE_RUNNING : Nat := 1

/-- `const SIPI_VECTOR: u8 = 7`. -/
def SIPI_VECTOR : Nat := 7

/-- One polling probe: `cpus.iter().all(|cpu| cpu.state.load(SeqCst) == STATE_RUNNING)`. -/
def all_running (stateAt : Nat → Nat → Nat) (t n : Nat) : Bool :=
  (List.range n).all (fun i => stateAt t i == STATE_RUNNING)

/-- The 200 µs polling window (`for _delay in 0..200`): true iff some
iteration observes every AP running, causing the early return. -/
def early_return (stateAt : Nat → Nat → Nat) (n : Nat) : Bool :=
  (List.range 200).any (fun t => all_running stateAt t n)

/-- The observable IPI activity of `init_sipi_sipi`: the broadcast INIT, the
broadcast SIPI vector, and the directed `(cpu, vector)` SIPIs. -/
structure SipiSeq where
  init_broadcast : Bool
  sipi_broadcast_vector : Nat
  directed : List (Nat × Nat)
deriving DecidableEq

/-- `unsafe fn init_sipi_sipi`: broadcast INIT, wait, broadcast SIPI with
`SIPI_VECTOR`, poll for up to 200 iterations and return early if all APs
report RUNNING; otherwise send a directed SIPI (vector 7) to each CPU whose
state word still does not read `STATE_RUNNING`. -/
def init_sipi_sipi (stateAt : Nat → Nat → Nat) (lateState : Nat → Nat) (n : Nat) : SipiSeq :=
  ⟨true, SIPI_VECTOR,
    if early_return stateAt n then []
    else ((List.range n).filter (fun i => lateState i != STATE_RUNNING)).map
      (fun i => (i, SIPI_VECTOR))⟩

/-! ## Auxiliary definitions for the statements -/

/-- A canonical 48-bit virtual address (sign-extended into 64 bits), per the
spec's 48-bit virtual address space. -/
def Canonical (va : Nat) : Prop :=
  va < 2 ^ 47 ∨ (2 ^ 64 - 2 ^ 47 ≤ va ∧ va < 2 ^ 64)

/-- Optionally perform a store: used to describe the interior writes a
successful `map` may or may not make at each level. -/
def owrite (m : Mem) (a : Nat) : Option Nat → Mem
  | none => m
  | some v => write m a v

/-- An arbitrary `PTEFlags` value, one Bool per defined flag:
PRESENT, WRITE, USER, WRTHRU, NOCACHE, ACCESS, DIRTY, HUGE, GLOBAL, NX. -/
def flag_bits (p w u wt nc ac dt hg gl nx : Bool) : Nat :=
  (if p then 1 else 0) + (if w then 2 else 0) + (if u then 4 else 0) +
  (if wt then 8 else 0) + (if nc then 16 else 0) + (if ac then 32 else 0) +
  (if dt then 64 else 0) + (if hg then 128 else 0) + (if gl then 256 else 0) +
  (if nx then 2 ^ 63 else 0)

/-- A concrete PTE store with a complete 4-level path for `va = 0x1000`:
L4, L3 and L2 entries point to (fictitious) child tables at 0x2000, 0x3000
and 0x4000, and the L1 leaf maps frame 0x5000. -/
def fullPathMem : Mem := fun a =>
  if a = l4addr 0x1000 then 0x2003
  else if a = l3addr 0x1000 then 0x3003
  else if a = l2addr 0x1000 then 0x4003
  else if a = l1addr 0x1000 then 0x5001
  else 0

/-- A concrete PTE store whose interior path for `va = 0x400000` exists
(L4 → 0x2000, L3 → 0x3000, L2 → 0x4000) and whose L1 slot is empty. -/
def interiorMem : Mem := fun a =>
  if a = l4addr 0x400000 then 0x2003
  else if a = l3addr 0x400000 then 0x3003
  else if a = l2addr 0x400000 then 0x4003
  else 0

/-- An optional freshly-installed interior entry: when present, the word is
an aligned frame plus exactly `PRESENT | WRITE`. -/
def interior_word (o : Option Nat) : Prop :=
  ∀ v ∈ o, ∃ pf, pfa pf = pf ∧ v = pf + (PRESENT + WRITE)

/-! ## Basic lemmas -/

theorem write_self (m : Mem) (a v : Nat) : write m a v a = v := by
  simp [write]

theorem write_ne (m : Mem) (a v b : Nat) (h : b ≠ a) : write m a v b = m b := by
  simp [write, h]

theorem owrite_ne (m : Mem) (a : Nat) (o : Option Nat) (b : Nat) (h : b ≠ a) :
    owrite m a o b = m b := by
  cases o with
  | none => rfl
  | some v => simpa [owrite] using write_ne m a v b h

/-- Under canonicality and the `map` assertion bound, the 48-bit truncation
of `va` is below the L1 self-map index range. -/
theorem canonical_low (va : Nat) (hc : Canonical va) (hs : va < L1_SIDE_BASE) :
    va % 2 ^ 48 < 0xFF0000000000 := by
  unfold Canonical at hc
  unfold L1_SIDE_BASE at hs
  omega

/-- For an address outside the recursive region, the four PTE slots for `va`
are pairwise distinct. -/
theorem addrs_distinct (va : Nat) (h : va % 2 ^ 48 < 0xFF0000000000) :
    l4addr va ≠ l3addr va ∧ l4addr va ≠ l2addr va ∧ l4addr va ≠ l1addr va ∧
    l3addr va ≠ l2addr va ∧ l3addr va ≠ l1addr va ∧ l2addr va ≠ l1addr va := by
  unfold l4addr l3addr l2addr l1addr index L4_BASE L3_BASE L2_BASE L1_BASE
  refine ⟨?_, ?_, ?_, ?_, ?_, ?_⟩ <;> omega

/-- `PTE_new` succeeds exactly on frame addresses that fit the mask, and
then simply adds the flag bits. -/
theorem PTE_new_ok (hpa flags v : Nat) (h : PTE_new hpa flags = some v) :
    pfa hpa = hpa ∧ v = hpa + flags := by
  unfold PTE_new at h
  split at h
  · exact ⟨by assumption, (Option.some.injEq _ _).mp h |>.symm⟩
  · exact absurd h (by simp)

/-- `alloc_inner` can only succeed with a `PRESENT | WRITE` entry over an
aligned frame. -/
theorem alloc_inner_ok {α : Type} (alloc : Alloc α) (st : α) (v : Nat) (st' : α)
    (h : alloc_inner alloc st = ARes.ok v st') :
    ∃ pf, pfa pf = pf ∧ v = pf + (PRESENT + WRITE) := by
  unfold alloc_inner at h
  split at h
  · exact absurd h (by simp)
  case _ p st'' heq =>
    rcases hP : PTE_new p (PRESENT + WRITE) with _ | w
    · rw [hP] at h
      exact absurd h (by simp)
    · rw [hP] at h
      obtain ⟨h1, h2⟩ := PTE_new_ok _ _ _ hP
      cases h
      exact ⟨p, h1, h2⟩

/-- Walks with a present interior path expose their four components. -/
theorem walk_eq_of (m : Mem) (va w4 w3 w2 : Nat)
    (h4 : decode4 (m (l4addr va)) = some w4)
    (h3 : decode3 (m (l3addr va)) = some (NP.next w3))
    (h2 : decode2 (m (l2addr va)) = some (NP.next w2)) :
    walk m va = ⟨some w4, some (NP.next w3), some (NP.next w2), decode1 (m (l1addr va))⟩ := by
  unfold walk
  rw [h4, h3, h2]

/-- If a walk reaches the leaf level, the upper three levels were all
present non-huge entries. -/
theorem walk_shape (m : Mem) (va p : Nat) (h : (walk m va).e1 = some p) :
    ∃ w4 w3 w2, walk m va = ⟨some w4, some (NP.next w3), some (NP.next w2), some p⟩ := by
  unfold walk at h ⊢
  cases hd4 : decode4 (m (l4addr va)) with
  | none => rw [hd4] at h; simp at h
  | some w4 =>
    rw [hd4] at h
    cases hd3 : decode3 (m (l3addr va)) with
    | none => rw [hd3] at h; simp at h
    | some e3 =>
      rw [hd3] at h
      cases e3 with
      | page w3 => simp at h
      | next w3 =>
        cases hd2 : decode2 (m (l2addr va)) with
        | none => rw [hd2] at h; simp at h
        | some e2 =>
          rw [hd2] at h
          cases e2 with
          | page w2 => simp at h
          | next w2 =>
            refine ⟨w4, w3, w2, ?_⟩
            dsimp only at h ⊢
            rw [h]

/-- What a successful final `map` stage did: the original L1 slot was empty,
the frame fit the mask, and the leaf was stored. -/
theorem map_l1_ok {α : Type} (hpf flags va : Nat) (m : Mem) (st : α) (w : Walk)
    (m' : Mem) (st' : α) (h : map_l1 hpf flags va m st w = Outcome.ok m' st') :
    w.e1 = none ∧ pfa hpf = hpf ∧ m' = write m (l1addr va) (hpf + flags) := by
  unfold map_l1 at h
  rcases hw1 : w.e1 with _ | p
  · rw [hw1] at h
    rcases hP : PTE_new hpf flags with _ | v
    · rw [hP] at h
      exact Outcome.noConfusion h
    · rw [hP] at h
      injection h with h1 h2
      obtain ⟨ha, hv⟩ := PTE_new_ok _ _ _ hP
      exact ⟨rfl, ha, by rw [← h1, hv]⟩
  · rw [hw1] at h
    exact Outcome.noConfusion h

/-- What a successful `map` did from the L2 stage down. -/
theorem map_l2_ok {α : Type} (hpf flags va : Nat) (alloc : Alloc α) (m : Mem) (st : α)
    (w : Walk) (m' : Mem) (st' : α) (h : map_l2 hpf flags va alloc m st w = Outcome.ok m' st') :
    w.e1 = none ∧ pfa hpf = hpf ∧
    ∃ o2 : Option Nat, (w.e2 = none ↔ o2.isSome) ∧ interior_word o2 ∧
      m' = write (owrite m (l2addr va) o2) (l1addr va) (hpf + flags) := by
  unfold map_l2 at h
  rcases hw2 : w.e2 with _ | p2
  · rw [hw2] at h
    rcases hA : alloc_inner alloc st with _ | ⟨e, st2⟩ | ⟨v2, st2⟩ <;> rw [hA] at h
    · exact Outcome.noConfusion h
    · exact Outcome.noConfusion h
    · obtain ⟨h1, h2, h3⟩ := map_l1_ok hpf flags va _ st2 w m' st' h
      refine ⟨h1, h2, some v2, by simp, ?_, by simpa [owrite] using h3⟩
      intro v hv
      simp at hv
      subst hv
      exact alloc_inner_ok alloc st v2 st2 hA
  · rw [hw2] at h
    obtain ⟨h1, h2, h3⟩ := map_l1_ok hpf flags va m st w m' st' h
    exact ⟨h1, h2, none, by simp [hw2], by simp [interior_word], by simpa [owrite] using h3⟩

/-- What a successful `map` did from the L3 stage down. -/
theorem map_l3_ok {α : Type} (hpf flags va : Nat) (alloc : Alloc α) (m : Mem) (st : α)
    (w : Walk) (m' : Mem) (st' : α) (h : map_l3 hpf flags va alloc m st w = Outcome.ok m' st') :
    w.e1 = none ∧ pfa hpf = hpf ∧
    ∃ o3 o2 : Option Nat, (w.e3 = none ↔ o3.isSome) ∧ (w.e2 = none ↔ o2.isSome) ∧
      interior_word o3 ∧ interior_word o2 ∧
      m' = write (owrite (owrite m (l3addr va) o3) (l2addr va) o2) (l1addr va) (hpf + flags) := by
  unfold map_l3 at h
  rcases hw3 : w.e3 with _ | p3
  · rw [hw3] at h
    rcases hA : alloc_inner alloc st with _ | ⟨e, st3⟩ | ⟨v3, st3⟩ <;> rw [hA] at h
    · exact Outcome.noConfusion h
    · exact Outcome.noConfusion h
    · obtain ⟨h1, h2, o2, ho2, hi2, h3⟩ := map_l2_ok hpf flags va alloc _ st3 w m' st' h
      refine ⟨h1, h2, some v3, o2, by simp, ho2, ?_, hi2, by simpa [owrite] using h3⟩
      intro v hv
      simp at hv
      subst hv
      exact alloc_inner_ok alloc st v3 st3 hA
  · rw [hw3] at h
    obtain ⟨h1, h2, o2, ho2, hi2, h3⟩ := map_l2_ok hpf flags va alloc m st w m' st' h
    exact ⟨h1, h2, none, o2, by simp [hw3], ho2, by simp [interior_word], hi2,
      by simpa [owrite] using h3⟩

/-- What a successful `map` did from the L4 stage down. -/
theorem map_l4_ok {α : Type} (hpf flags va : Nat) (alloc : Alloc α) (m : Mem) (st : α)
    (w : Walk) (m' : Mem) (st' : α) (h : map_l4 hpf flags va alloc m st w = Outcome.ok m' st') :
    w.e1 = none ∧ pfa hpf = hpf ∧
    ∃ o4 o3 o2 : Option Nat, (w.e4 = none ↔ o4.isSome) ∧ (w.e3 = none ↔ o3.isSome) ∧
      (w.e2 = none ↔ o2.isSome) ∧ interior_word o4 ∧ interior_word o3 ∧ interior_word o2 ∧
      m' = write (owrite (owrite (owrite m (l4addr va) o4) (l3addr va) o3) (l2addr va) o2)
        (l1addr va) (hpf + flags) := by
  unfold map_l4 at h
  rcases hw4 : w.e4 with _ | p4
  · rw [hw4] at h
    rcases hA : alloc_inner alloc st with _ | ⟨e, st4⟩ | ⟨v4, st4⟩ <;> rw [hA] at h
    · exact Outcome.noConfusion h
    · exact Outcome.noConfusion h
    · obtain ⟨h1, h2, o3, o2, ho3, ho2, hi3, hi2, h3⟩ :=
        map_l3_ok hpf flags va alloc _ st4 w m' st' h
      refine ⟨h1, h2, some v4, o3, o2, by simp, ho3, ho2, ?_, hi3, hi2,
        by simpa [owrite] using h3⟩
      intro v hv
      simp at hv
      subst hv
      exact alloc_inner_ok alloc st v4 st4 hA
  · rw [hw4] at h
    obtain ⟨h1, h2, o3, o2, ho3, ho2, hi3, hi2, h3⟩ :=
      map_l3_ok hpf flags va alloc m st w m' st' h
    exact ⟨h1, h2, none, o3, o2, by simp [hw4], ho3, ho2, by simp [interior_word], hi3, hi2,
      by simpa [owrite] using h3⟩

/-- Shape of any successful `map` call: the address passed the assertion,
the original leaf slot was empty, the frame fit, some subset of the three
interior slots received fresh `PRESENT | WRITE` entries (exactly the absent
levels of the original walk), and the leaf was stored last. -/
theorem map_ok_shape {α : Type} (hpf flags va : Nat) (alloc : Alloc α) (m : Mem) (st : α)
    (m' : Mem) (st' : α) (hok : map hpf flags va alloc m st = Outcome.ok m' st') :
    va < L1_SIDE_BASE ∧ (walk m va).e1 = none ∧ pfa hpf = hpf ∧
    ∃ o4 o3 o2 : Option Nat,
      ((walk m va).e4 = none ↔ o4.isSome) ∧ ((walk m va).e3 = none ↔ o3.isSome) ∧
      ((walk m va).e2 = none ↔ o2.isSome) ∧
      interior_word o4 ∧ interior_word o3 ∧ interior_word o2 ∧
      m' = write (owrite (owrite (owrite m (l4addr va) o4) (l3addr va) o3) (l2addr va) o2)
        (l1addr va) (hpf + flags) := by
  unfold map at hok
  split at hok
  case isTrue hside =>
    obtain ⟨h1, h2, h3⟩ := map_l4_ok hpf flags va alloc m st (walk m va) m' st' hok
    exact ⟨hside, h1, h2, h3⟩
  case isFalse => exact Outcome.noConfusion hok

/-- Offsets below 4 KiB do not change any level index of a page-aligned
address. -/
theorem addr_stable (va d : Nat) (hal : va % 2 ^ 12 = 0) (hd : d < 2 ^ 12) :
    l4addr (va + d) = l4addr va ∧ l3addr (va + d) = l3addr va ∧
    l2addr (va + d) = l2addr va ∧ l1addr (va + d) = l1addr va := by
  have h48 : (va + d) % 2 ^ 48 = va % 2 ^ 48 + d := by omega
  have hX : va % 2 ^ 48 % 2 ^ 12 = 0 := by omega
  have h39 : (va % 2 ^ 48 + d) / 2 ^ 39 = va % 2 ^ 48 / 2 ^ 39 := by omega
  have h30 : (va % 2 ^ 48 + d) / 2 ^ 30 = va % 2 ^ 48 / 2 ^ 30 := by omega
  have h21 : (va % 2 ^ 48 + d) / 2 ^ 21 = va % 2 ^ 48 / 2 ^ 21 := by omega
  have h12 : (va % 2 ^ 48 + d) / 2 ^ 12 = va % 2 ^ 48 / 2 ^ 12 := by omega
  unfold l4addr l3addr l2addr l1addr index
  rw [h48, h39, h30, h21, h12]
  exact ⟨rfl, rfl, rfl, rfl⟩

/-- Decoding a leaf built from an aligned frame plus a present low/NX flag
word recovers the frame. -/
theorem decode1_of_fit (f c : Nat) (hf : pfa f = f) (hc : c % 2 = 1)
    (hcs : c % 2 ^ 47 < 2 ^ 12) : decode1 (f + c) = some f := by
  have h1 : (f + c) % 2 = 1 := by unfold pfa at hf; omega
  have h2 : (f + c) % 2 ^ 47 / 2 ^ 12 * 2 ^ 12 = f := by unfold pfa at hf; omega
  unfold decode1 is_present pfa
  rw [if_pos h1, h2]

/-- The leaf permission word for a readable page is present and occupies
only bits 0..1 and 63. -/
theorem perm_fit (w x : Bool) :
    page_perm_flags true w x % 2 = 1 ∧ page_perm_flags true w x % 2 ^ 47 < 2 ^ 12 := by
  cases w <;> cases x <;> exact ⟨by decide, by decide⟩

/-- Adding a word that occupies only the defined flag bits (0..8 and 63) to
an aligned frame address leaves exactly that word as the flag view. -/
theorem flags_of_add_small (pf c : Nat) (hpf : pfa pf = pf)
    (hc : c % 2 ^ 9 + c / 2 ^ 63 % 2 * 2 ^ 63 = c) : flags_of (pf + c) = c := by
  unfold pfa at hpf
  unfold flags_of
  omega

/-- The software flag view of an aligned frame plus the interior
`PRESENT | WRITE` word. -/
theorem flags_of_interior (pf : Nat) (hpf : pfa pf = pf) :
    flags_of (pf + (PRESENT + WRITE)) = PRESENT + WRITE :=
  flags_of_add_small pf (PRESENT + WRITE) hpf (by decide)

/-- The software flag view of an aligned frame plus a leaf permission
word recovers exactly the permission word. -/
theorem flags_of_perm (pf : Nat) (r w x : Bool) (hpf : pfa pf = pf) :
    flags_of (pf + page_perm_flags r w x) = page_perm_flags r w x := by
  cases r <;> cases w <;> cases x <;> exact flags_of_add_small _ _ hpf (by decide)

/-- The bump-allocator alignment adjustment makes the address a multiple of
the (positive) alignment. -/
theorem align_offset_spec (addr align : Nat) (h : 0 < align) :
    (addr + align_offset addr align) % align = 0 := by
  unfold align_offset
  rcases Nat.eq_zero_or_pos (addr % align) with h0 | h0
  · rw [h0, Nat.sub_zero, Nat.mod_self, Nat.add_zero]
    exact h0
  · have hlt : addr % align < align := Nat.mod_lt _ h
    have heq : (align - addr % align) % align = align - addr % align :=
      Nat.mod_eq_of_lt (by omega)
    rw [heq]
    have hdm := Nat.div_add_mod addr align
    have : addr + (align - addr % align) = align * (addr / align + 1) := by
      rw [Nat.mul_add, Nat.mul_one]
      omega
    rw [this]
    exact Nat.mul_mod_right align (addr / align + 1)

/-- Success of `make_ranges_level` implies every range end, rounded up at
that level's granularity, passed the forbidden-region assertion. -/
theorem make_ranges_level_ok_bound {α : Type} (base shift : Nat) (alloc : Alloc α)
    (ranges : List (Nat × Nat)) (m : Mem) (st : α) (m' : Mem) (st' : α)
    (h : make_ranges_level base shift alloc ranges m st = Outcome.ok m' st') :
    ∀ p ∈ ranges, round_up64 p.2 (2 ^ shift) < L1_SIDE_BASE := by
  induction ranges generalizing m st with
  | nil => intro p hp; simp at hp
  | cons q tl ih =>
    rcases q with ⟨s, e⟩
    intro p hp
    unfold make_ranges_level at h
    split at h
    case isTrue hlt =>
      rcases List.mem_cons.mp hp with hp | hp
      · subst hp
        exact hlt
      · split at h
        · exact ih _ _ h p hp
        · rename_i hne
          exact absurd h (hne _ _)
    case isFalse => exact Outcome.noConfusion h

/-- Success of `make_shared_ranges_level4` implies every range end, rounded
up to 512 GiB, passed the forbidden-region assertion. -/
theorem make_shared_level4_ok_bound {α : Type} (alloc : Alloc α)
    (ranges : List (Nat × Nat)) (m : Mem) (st : α) (m' : Mem) (st' : α)
    (h : make_shared_ranges_level4 alloc ranges m st = Outcome.ok m' st') :
    ∀ p ∈ ranges, round_up64 p.2 (2 ^ 39) < L1_SIDE_BASE := by
  induction ranges generalizing m st with
  | nil => intro p hp; simp at hp
  | cons q tl ih =>
    rcases q with ⟨s, e⟩
    intro p hp
    unfold make_shared_ranges_level4 at h
    split at h
    case isTrue hlt =>
      rcases List.mem_cons.mp hp with hp | hp
      · subst hp
        exact hlt
      · split at h
        · exact ih _ _ h p hp
        · rename_i hne
          exact absurd h (hne _ _)
    case isFalse => exact Outcome.noConfusion h

/-! ## Claim theorems -/

/-- C2: the claim states that for every fully-mapped 4 KiB-aligned virtual
address, `unmap(va)` clears only the L1 (leaf) entry and leaves the L4, L3
and L2 entries intact.  The code does the opposite: on a concrete PTE store
with a complete path for `va = 0x1000`, `unmap` zeroes the L4 entry and
leaves the L1 leaf entry (and L3, L2) unchanged, contradicting the
function's own documentation. -/
theorem C2_unmap_clears_root_not_leaf :
    unmap fullPathMem 0x1000 (l1addr 0x1000) = 0x5001 ∧
    unmap fullPathMem 0x1000 (l2addr 0x1000) = 0x4003 ∧
    unmap fullPathMem 0x1000 (l3addr 0x1000) = 0x3003 ∧
    unmap fullPathMem 0x1000 (l4addr 0x1000) = 0 ∧
    fullPathMem (l4addr 0x1000) = 0x2003 ∧
    fullPathMem (l1addr 0x1000) = 0x5001 := by
  decide

/-- C3: for a 4 KiB-aligned address below the recursive region whose walk
already reaches a present L1 entry, `map` (with any frame, flag word and
allocator) and `map_leaf` return the `Already mapped` error, and the PTE
store handed back is exactly the input store: no entry at any level was
modified and the allocator was never invoked. -/
theorem C3_already_mapped_error {α : Type} (m : Mem) (va hpf flags : Nat) (alloc : Alloc α)
    (st : α) (r w x : Bool) (p : Nat) (hside : va < L1_SIDE_BASE)
    (h1 : (walk m va).e1 = some p) :
    map hpf flags va alloc m st = Outcome.fail ("Already mapped") m st ∧
    map_leaf hpf va r w x m = Outcome.fail ("Already mapped") m () := by
  obtain ⟨w4, w3, w2, hw⟩ := walk_shape m va p h1
  constructor
  · unfold map
    rw [if_pos hside, hw]
    simp [map_l4, map_l3, map_l2, map_l1]
  · unfold map_leaf map
    rw [if_pos hside, hw]
    simp [map_l4, map_l3, map_l2, map_l1]

/-- C3 witness: mapping `0x123000` at `0x400000` in a store where it is
already mapped (the result of a first `map_leaf`) fails with
`Already mapped` and returns the store unchanged. -/
theorem C3_witness :
    map_leaf 0x123000 0x400000 true true false
        (write interiorMem (l1addr 0x400000) (0x123000 + page_perm_flags true true false)) =
      Outcome.fail ("Already mapped")
        (write interiorMem (l1addr 0x400000) (0x123000 + page_perm_flags true true false)) () :=
  (C3_already_mapped_error
    (write interiorMem (l1addr 0x400000) (0x123000 + page_perm_flags true true false))
    0x400000 0x123000 0 (fun st => (Except.error ("no"), st)) () true true false
    0x123000 (by decide) (by decide)).2

/-- C10: whenever the walk for `va` fails to find present entries at all
four levels — a missing level, or a present huge-page leaf terminating the
walk at L3 or L2, both of which leave the L1 component empty — `unmap` is a
complete no-op: it returns the PTE store unchanged. -/
theorem C10_unmap_noop (m : Mem) (va : Nat) (h : (walk m va).e1 = none) :
    unmap m va = m := by
  unfold unmap
  rcases hw : walk m va with ⟨e4, e3, e2, e1⟩
  rw [hw] at h
  simp only at h
  subst h
  rcases e4 with _ | w4 <;> rcases e3 with _ | p3 <;> rcases e2 with _ | p2 <;> rfl

/-- C10 witness: on the empty store nothing is mapped, and `unmap` at 0
returns the store unchanged. -/
theorem C10_witness : unmap (fun _ => 0) 0 = (fun _ => 0) :=
  C10_unmap_noop (fun _ => 0) 0 (by decide)

/-- C1: for a canonical 4 KiB-aligned `va` outside the self/side-map
windows whose interior L4/L3/L2 entries exist (and whose L1 slot is empty),
`map_leaf(f, va, true, w, x)` with an aligned frame `f` succeeds, and
afterwards `translate (va + d)` for any `0 ≤ d < 4096` returns exactly
`f + d` — in particular `translate va = some f`. -/
theorem C1_map_leaf_translate (m : Mem) (va f d : Nat) (w x : Bool) (w4 w3 w2 : Nat)
    (hcan : Canonical va) (hal : va % 2 ^ 12 = 0) (hside : va < L1_SIDE_BASE)
    (hf : pfa f = f) (hd : d < 2 ^ 12)
    (h4 : decode4 (m (l4addr va)) = some w4)
    (h3 : decode3 (m (l3addr va)) = some (NP.next w3))
    (h2 : decode2 (m (l2addr va)) = some (NP.next w2))
    (h1 : decode1 (m (l1addr va)) = none) :
    map_leaf f va true w x m =
      Outcome.ok (write m (l1addr va) (f + page_perm_flags true w x)) () ∧
    translate (write m (l1addr va) (f + page_perm_flags true w x)) (va + d) =
      some (f + d) := by
  have hw : walk m va = ⟨some w4, some (NP.next w3), some (NP.next w2), none⟩ := by
    rw [walk_eq_of m va w4 w3 w2 h4 h3 h2, h1]
  have hD := addrs_distinct va (canonical_low va hcan hside)
  have hS := addr_stable va d hal hd
  constructor
  · unfold map_leaf map
    rw [if_pos hside, hw]
    simp [map_l4, map_l3, map_l2, map_l1, PTE_new, hf]
  · have e4' : decode4 (write m (l1addr va) (f + page_perm_flags true w x) (l4addr (va + d)))
        = some w4 := by
      rw [hS.1, write_ne _ _ _ _ hD.2.2.1]
      exact h4
    have e3' : decode3 (write m (l1addr va) (f + page_perm_flags true w x) (l3addr (va + d)))
        = some (NP.next w3) := by
      rw [hS.2.1, write_ne _ _ _ _ hD.2.2.2.2.1]
      exact h3
    have e2' : decode2 (write m (l1addr va) (f + page_perm_flags true w x) (l2addr (va + d)))
        = some (NP.next w2) := by
      rw [hS.2.2.1, write_ne _ _ _ _ hD.2.2.2.2.2]
      exact h2
    have e1' : decode1 (write m (l1addr va) (f + page_perm_flags true w x) (l1addr (va + d)))
        = some f := by
      rw [hS.2.2.2, write_self]
      exact decode1_of_fit f _ hf (perm_fit w x).1 (perm_fit w x).2
    unfold translate
    rw [walk_eq_of _ _ w4 w3 w2 e4' e3' e2', e1']
    unfold translate_walk
    have : (va + d) % 2 ^ 12 = d := by omega
    rw [this]

/-- C1 witness: scenario S1 of the spec — in a store whose interior path
for `0x400000` exists, `map_leaf(PF4K(0x123000), V4KA(0x400000), R, W, X)`
succeeds and `translate(0x400100)` returns `HPA(0x123100)`. -/
theorem C1_witness :
    map_leaf 0x123000 0x400000 true true true interiorMem =
      Outcome.ok (write interiorMem (l1addr 0x400000)
        (0x123000 + page_perm_flags true true true)) () ∧
    translate (write interiorMem (l1addr 0x400000)
        (0x123000 + page_perm_flags true true true)) (0x400000 + 0x100) =
      some (0x123000 + 0x100) :=
  C1_map_leaf_translate interiorMem 0x400000 0x123000 0x100 true true 0x2003 0x3003 0x4003
    (Or.inl (by decide)) (by decide) (by decide) (by decide) (by decide)
    (by decide) (by decide) (by decide) (by decide)

/-- C4: after any successful `map` of frame `f` with the R/W/X-translated
permission word at a canonical `va`, the final L1 entry's flag set is
exactly the translation of the requested permissions (PRESENT iff R, WRITE
iff W, NX iff not X), and every interior entry installed by the call (the
levels absent from the original walk) carries exactly `PRESENT | WRITE`. -/
theorem C4_map_installed_flags {α : Type} (m : Mem) (va f : Nat) (alloc : Alloc α)
    (st st' : α) (r w x : Bool) (m' : Mem) (hcan : Canonical va)
    (hok : map f (page_perm_flags r w x) va alloc m st = Outcome.ok m' st') :
    flags_of (m' (l1addr va)) = page_perm_flags r w x ∧
    ((walk m va).e4 = none → flags_of (m' (l4addr va)) = PRESENT + WRITE) ∧
    ((walk m va).e3 = none → flags_of (m' (l3addr va)) = PRESENT + WRITE) ∧
    ((walk m va).e2 = none → flags_of (m' (l2addr va)) = PRESENT + WRITE) := by
  obtain ⟨hside, he1, hf, o4, o3, o2, ho4, ho3, ho2, hi4, hi3, hi2, hm'⟩ :=
    map_ok_shape f (page_perm_flags r w x) va alloc m st m' st' hok
  have hD := addrs_distinct va (canonical_low va hcan hside)
  subst hm'
  refine ⟨?_, ?_, ?_, ?_⟩
  · rw [write_self]
    exact flags_of_perm f r w x hf
  · intro h4
    rcases o4 with _ | v4
    · simp [h4] at ho4
    · obtain ⟨pf, hpf, hv⟩ := hi4 v4 rfl
      rw [write_ne _ _ _ _ hD.2.2.1, owrite_ne _ _ _ _ hD.2.1, owrite_ne _ _ _ _ hD.1,
        owrite, write_self, hv]
      exact flags_of_interior pf hpf
  · intro h3
    rcases o3 with _ | v3
    · simp [h3] at ho3
    · obtain ⟨pf, hpf, hv⟩ := hi3 v3 rfl
      rw [write_ne _ _ _ _ hD.2.2.2.2.1, owrite_ne _ _ _ _ hD.2.2.2.1,
        owrite, write_self, hv]
      exact flags_of_interior pf hpf
  · intro h2
    rcases o2 with _ | v2
    · simp [h2] at ho2
    · obtain ⟨pf, hpf, hv⟩ := hi2 v2 rfl
      rw [write_ne _ _ _ _ hD.2.2.2.2.2, owrite, write_self, hv]
      exact flags_of_interior pf hpf

/-- C4 witness: mapping `0x123000` read-only non-executable at `0x400000`
over an existing interior path yields an L1 entry whose flag set is exactly
the R/W/X translation. -/
theorem C4_witness :
    flags_of (write interiorMem (l1addr 0x400000)
        (0x123000 + page_perm_flags true false false) (l1addr 0x400000)) =
      page_perm_flags true false false :=
  (C4_map_installed_flags interiorMem 0x400000 0x123000
    (fun st => (Except.error ("no"), st)) () () true false false
    (write interiorMem (l1addr 0x400000) (0x123000 + page_perm_flags true false false))
    (Or.inl (by decide)) (by rfl)).1

/-- C5: no map-family operation ever succeeds on the self/side-map region
(every window base lies at or above `0xFFFF_FF00_0000_0000`): `map` and
`map_leaf` hit the forbidden-region assertion (panic) for any `va` at or
above that bound, and a successful `make_ranges` or `make_shared_ranges`
implies every requested range, rounded up to the coarsest (512 GiB)
granularity at which entries are created, ends strictly below it. -/
theorem C5_forbidden_region (α : Type) :
    (∀ (hpf flags va : Nat) (alloc : Alloc α) (m : Mem) (st : α),
      L1_SIDE_BASE ≤ va → map hpf flags va alloc m st = Outcome.panic) ∧
    (∀ (hpf va : Nat) (r w x : Bool) (m : Mem),
      L1_SIDE_BASE ≤ va → map_leaf hpf va r w x m = Outcome.panic) ∧
    (∀ (ranges : List (Nat × Nat)) (alloc : Alloc α) (m : Mem) (st st' : α) (m' : Mem),
      make_ranges ranges alloc m st = Outcome.ok m' st' →
      ∀ p ∈ ranges, round_up64 p.2 (2 ^ 39) < L1_SIDE_BASE) ∧
    (∀ (ranges : List (Nat × Nat)) (side : Nat) (alloc : Alloc α) (s : MState) (st st' : α)
      (rt : Nat) (s' : MState),
      make_shared_ranges ranges side alloc s st = OutcomeS.ok rt s' st' →
      ∀ p ∈ ranges, round_up64 p.2 (2 ^ 39) < L1_SIDE_BASE) := by
  refine ⟨?_, ?_, ?_, ?_⟩
  · intro hpf flags va alloc m st hva
    unfold map
    rw [if_neg (by omega)]
  · intro hpf va r w x m hva
    unfold map_leaf map
    rw [if_neg (by omega)]
  · intro ranges alloc m st st' m' h
    unfold make_ranges at h
    split at h
    case _ m1 st1 heq => exact make_ranges_level_ok_bound L4_BASE 39 alloc ranges m st m1 st1 heq
    case _ => rename_i hne; exact absurd h (hne _ _)
  · intro ranges side alloc s st st' rt s' h
    unfold make_shared_ranges at h
    split at h
    · exact OutcomeS.noConfusion h
    case _ s1 hload =>
      split at h
      · exact OutcomeS.noConfusion h
      · exact OutcomeS.noConfusion h
      case _ m1 st1 heq =>
        exact make_shared_level4_ok_bound alloc ranges s1.mem st m1 st1 heq

/-- C5 witness: attempting to map the base of the L1 side window panics
(forbidden region) rather than succeeding. -/
theorem C5_witness :
    map 0 0 L1_SIDE_BASE (fun st => (Except.error ("no"), st)) (fun _ => 0) () =
      Outcome.panic :=
  (C5_forbidden_region Unit).1 0 0 L1_SIDE_BASE (fun st => (Except.error ("no"), st))
    (fun _ => 0) () (Nat.le_refl _)

/-- C6: every successful `alloc_bytes(align, size)` (power-of-two align, as
`align_offset` requires) returns a region of length `size` inside the
backing buffer whose absolute base is a multiple of `align`; the cursor
advances to the end of the returned region, so any later successful
allocation from the same buffer starts at or after `r + size` (no two
successful returns overlap); and on a 12 KiB buffer three successive
4 KiB-aligned 4 KiB allocations succeed at 0, 4096 and 8192 and the fourth
fails. -/
theorem C6_alloc_bytes_spec (b : BumpAlloc) (align size r : Nat) (b' : BumpAlloc)
    (ha : ∃ k, align = 2 ^ k) (h : alloc_bytes b align size = some (r, b')) :
    (r % align = 0 ∧ b.base + b.cursor ≤ r ∧ r + size ≤ b.base + b.len ∧
      r + size = b.base + b'.cursor ∧ b'.base = b.base ∧ b'.len = b.len ∧
      b.cursor ≤ b'.cursor) ∧
    (∀ (b2 : BumpAlloc) (align2 size2 r2 : Nat) (b2' : BumpAlloc), b2.base = b.base →
      b'.cursor ≤ b2.cursor → alloc_bytes b2 align2 size2 = some (r2, b2') →
      r + size ≤ r2) ∧
    (alloc_bytes ⟨0, 12288, 0⟩ 4096 4096 = some (0, ⟨0, 12288, 4096⟩) ∧
      alloc_bytes ⟨0, 12288, 4096⟩ 4096 4096 = some (4096, ⟨0, 12288, 8192⟩) ∧
      alloc_bytes ⟨0, 12288, 8192⟩ 4096 4096 = some (8192, ⟨0, 12288, 12288⟩) ∧
      alloc_bytes ⟨0, 12288, 12288⟩ 4096 4096 = none) := by
  obtain ⟨k, hk⟩ := ha
  have hpos : 0 < align := by rw [hk]; exact Nat.pos_pow_of_pos k (by omega)
  unfold alloc_bytes at h
  split at h
  case isFalse => exact Option.noConfusion h
  case isTrue hle =>
  simp only [Option.some.injEq, Prod.mk.injEq] at h
  obtain ⟨hr, hb⟩ := h
  subst hr
  subst hb
  refine ⟨⟨?_, by omega, by omega, by dsimp only; omega, by simp, by simp,
    by dsimp only; omega⟩, ?_, by decide⟩
  · rw [← Nat.add_assoc]
    exact align_offset_spec (b.base + b.cursor) align hpos
  · intro b2 align2 size2 r2 b2' hbase hcur h2
    unfold alloc_bytes at h2
    split at h2
    case isFalse => exact Option.noConfusion h2
    case isTrue hle2 =>
    simp only [Option.some.injEq, Prod.mk.injEq] at h2
    obtain ⟨hr2, hb2⟩ := h2
    simp only at hcur
    omega

/-- C6 witness: the 12 KiB scenario — three 4 KiB page allocations then
failure. -/
theorem C6_witness :
    alloc_bytes ⟨0, 12288, 0⟩ 4096 4096 = some (0, ⟨0, 12288, 4096⟩) ∧
    alloc_bytes ⟨0, 12288, 4096⟩ 4096 4096 = some (4096, ⟨0, 12288, 8192⟩) ∧
    alloc_bytes ⟨0, 12288, 8192⟩ 4096 4096 = some (8192, ⟨0, 12288, 12288⟩) ∧
    alloc_bytes ⟨0, 12288, 12288⟩ 4096 4096 = none :=
  (C6_alloc_bytes_spec ⟨0, 12288, 0⟩ 4096 4096 0 ⟨0, 12288, 4096⟩ ⟨12, rfl⟩ (by decide)).2.2

/-- C7 counterexample: the claim quantifies over every 4 KiB page frame,
and the data model allows page-aligned frame addresses up to bits 12..51
(below 2^52).  But for the page-aligned frame `2^47`, `side_load` panics in
`PTE::new` (whose `PFA_MASK` spans only bits 12..46), so no round trip
through slot 510 returns it. -/
theorem C7_counterexample :
    (2 ^ 47 : Nat) % 2 ^ 12 = 0 ∧ (2 ^ 47 : Nat) < 2 ^ 52 ∧
    side_load (2 ^ 47) ⟨fun _ => 0, 0⟩ = none := by
  refine ⟨by decide, by decide, ?_⟩
  unfold side_load PTE_new
  rw [if_neg (by decide)]

/-- C7 (amended): for every 4 KiB page frame `r` whose address fits the PTE
frame field (page aligned and below 2^47, as `PTE::new` asserts),
`side_load r` succeeds and a following `unload_side` returns exactly `r`
and leaves slot 510 of the root table zero; each of the two operations
performs one TLB flush on its (only) exit path. -/
theorem C7_side_load_roundtrip (s : MState) (r : Nat) (hr1 : r % 2 ^ 12 = 0)
    (hr2 : r < 2 ^ 47) :
    ∃ s1 : MState, side_load r s = some s1 ∧ s1.flushes = s.flushes + 1 ∧
      (unload_side s1).1 = r ∧ (unload_side s1).2.mem SIDE_SLOT_ADDR = 0 ∧
      (unload_side s1).2.flushes = s.flushes + 2 := by
  have hfit : pfa r = r := by unfold pfa; omega
  refine ⟨flush_tlb ⟨write s.mem SIDE_SLOT_ADDR (r + (PRESENT + WRITE)), s.flushes⟩,
    ?_, rfl, ?_, ?_, rfl⟩
  · unfold side_load PTE_new
    rw [if_pos hfit]
  · unfold unload_side flush_tlb
    simp only
    rw [write_self]
    unfold pfa PRESENT WRITE at *
    omega
  · unfold unload_side flush_tlb
    simp only
    rw [write_self]

/-- C7 witness: the round trip through slot 510 with the SIPI page frame. -/
theorem C7_witness :
    ∃ s1 : MState, side_load 0x7000 ⟨fun _ => 0, 0⟩ = some s1 ∧ s1.flushes = 1 ∧
      (unload_side s1).1 = 0x7000 ∧ (unload_side s1).2.mem SIDE_SLOT_ADDR = 0 ∧
      (unload_side s1).2.flushes = 2 :=
  C7_side_load_roundtrip ⟨fun _ => 0, 0⟩ 0x7000 (by decide) (by decide)

/-- C8: if during the 200-iteration polling window following the broadcast
SIPI some probe reads every AP's state word as RUNNING, `init_sipi_sipi`
returns without sending any directed SIPI; and if the window expires with
no such probe, a directed SIPI with vector 7 is sent to exactly those CPUs
whose state word still does not read RUNNING. -/
theorem C8_directed_sipi (stateAt : Nat → Nat → Nat) (lateState : Nat → Nat) (n : Nat) :
    ((∃ t, t < 200 ∧ ∀ i, i < n → stateAt t i = STATE_RUNNING) →
      (init_sipi_sipi stateAt lateState n).directed = []) ∧
    ((∀ t, t < 200 → ∃ i, i < n ∧ stateAt t i ≠ STATE_RUNNING) →
      (init_sipi_sipi stateAt lateState n).directed =
        ((List.range n).filter (fun i => lateState i != STATE_RUNNING)).map
          (fun i => (i, SIPI_VECTOR))) := by
  constructor
  · rintro ⟨t, ht, hall⟩
    have he : early_return stateAt n = true := by
      unfold early_return all_running
      simp only [List.any_eq_true, List.mem_range, List.all_eq_true, beq_iff_eq]
      exact ⟨t, ht, fun i hi => hall i hi⟩
    simp [init_sipi_sipi, he]
  · intro hnone
    have he : early_return stateAt n = false := by
      rw [Bool.eq_false_iff]
      unfold early_return all_running
      simp only [ne_eq, List.any_eq_true, List.mem_range, List.all_eq_true, beq_iff_eq]
      rintro ⟨t, ht, hall⟩
      obtain ⟨i, hi, hne⟩ := hnone t ht
      exact hne (hall i hi)
    simp [init_sipi_sipi, he]

/-- C8 witness: scenario S6 — two APs whose state reads 1 within the window
cause no directed SIPIs. -/
theorem C8_witness :
    (init_sipi_sipi (fun _ _ => 1) (fun _ => 1) 2).directed = [] :=
  (C8_directed_sipi (fun _ _ => 1) (fun _ => 1) 2).1 ⟨0, by omega, fun i _ => rfl⟩

/-- C9 (amended): the claim asserts `PTE::new` accepts any page-aligned HPA
below 2^52 (bits 12..51); but `PFA_MASK = 0x0000_7FFF_FFFF_F000` only
covers bits 12..46, so the assertion `hpa & PFA_MASK == hpa` restricts
software-constructed PTEs to page-aligned HPAs below 2^47.  For every flag
set and every such HPA, `PTE::new` succeeds, `pfa` on the result returns
exactly the HPA, and bits 52..62 of the constructed entry are zero. -/
theorem C9_pte_new_roundtrip (hpa : Nat) (p w u wt nc ac dt hg gl nx : Bool)
    (h1 : hpa % 2 ^ 12 = 0) (h2 : hpa < 2 ^ 47) :
    PTE_new hpa (flag_bits p w u wt nc ac dt hg gl nx) =
      some (hpa + flag_bits p w u wt nc ac dt hg gl nx) ∧
    pfa (hpa + flag_bits p w u wt nc ac dt hg gl nx) = hpa ∧
    (hpa + flag_bits p w u wt nc ac dt hg gl nx) / 2 ^ 52 % 2 ^ 11 = 0 := by
  have hfit : pfa hpa = hpa := by unfold pfa; omega
  have hsplit : flag_bits p w u wt nc ac dt hg gl nx =
      flag_bits p w u wt nc ac dt hg gl false + (if nx then 2 ^ 63 else 0) := by
    unfold flag_bits
    cases nx <;> simp
  have hlow : flag_bits p w u wt nc ac dt hg gl false ≤ 511 := by
    unfold flag_bits
    have c1 : (if p then (1 : Nat) else 0) ≤ 1 := by cases p <;> decide
    have c2 : (if w then (2 : Nat) else 0) ≤ 2 := by cases w <;> decide
    have c3 : (if u then (4 : Nat) else 0) ≤ 4 := by cases u <;> decide
    have c4 : (if wt then (8 : Nat) else 0) ≤ 8 := by cases wt <;> decide
    have c5 : (if nc then (16 : Nat) else 0) ≤ 16 := by cases nc <;> decide
    have c6 : (if ac then (32 : Nat) else 0) ≤ 32 := by cases ac <;> decide
    have c7 : (if dt then (64 : Nat) else 0) ≤ 64 := by cases dt <;> decide
    have c8 : (if hg then (128 : Nat) else 0) ≤ 128 := by cases hg <;> decide
    have c9 : (if gl then (256 : Nat) else 0) ≤ 256 := by cases gl <;> decide
    simp only [if_neg Bool.false_ne_true]
    omega
  have hnx : (if nx then (2 : Nat) ^ 63 else 0) = 0 ∨
      (if nx then (2 : Nat) ^ 63 else 0) = 2 ^ 63 := by
    cases nx <;> simp
  refine ⟨?_, ?_, ?_⟩
  · unfold PTE_new
    rw [if_pos hfit]
  · rw [hsplit]
    unfold pfa
    omega
  · rw [hsplit]
    omega

/-- C9 witness: a typical frame with PRESENT, WRITE and NX set round-trips
through `PTE::new` and `pfa`. -/
theorem C9_witness :
    PTE_new 0x123000 (flag_bits true true false false false false false false false true) =
      some (0x123000 + flag_bits true true false false false false false false false true) ∧
    pfa (0x123000 + flag_bits true true false false false false false false false true) =
      0x123000 ∧
    (0x123000 + flag_bits true true false false false false false false false true) /
      2 ^ 52 % 2 ^ 11 = 0 :=
  C9_pte_new_roundtrip 0x123000 true true false false false false false false false true
    (by decide) (by decide)

/-- C9 counterexample: `2^47` is page-aligned and below `2^52`, yet
`PTE::new` rejects it (the Rust assertion fails), because the frame field
of a PTE only spans bits 12..46. -/
theorem C9_counterexample :
    (2 ^ 47 : Nat) % 2 ^ 12 = 0 ∧ (2 ^ 47 : Nat) < 2 ^ 52 ∧
    PTE_new (2 ^ 47) (flag_bits true false false false false false false false false false) =
      none := by
  decide

end Hypatia
